import Mathlib

/-!
# libgfrp2p: ring membership table and framed stream transport

A shallow embedding of `src/libgfrp2p/src/node_table.cpp` and of the TCP part of
`src/libgfrp2p/src/transport.cpp`, followed by theorems about the embedded code.

Conventions of the embedding:

* C++ run-time failures are explicit: a function that can throw or run into
  undefined behaviour returns `Result α = Except Fault α`.
* `unsigned long` (`size_t`) values are natural numbers reduced modulo `2 ^ 64`
  wherever the C++ arithmetic can wrap.
* `std::shared_ptr<Node>` is `Option Node`; the empty pointer is `none`.
* `std::string` payloads are lists of bytes, `std::string` identifiers, hosts and
  map keys are `String`.
* The mutex only serialises callers; every function is modelled on one thread.
-/

namespace Gfrp2p

/-! ## Failures -/

/-- The two ways the C++ code can fail at run time. -/
inductive Fault where
  /-- A `std::out_of_range` exception (`vector::at`, `string::substr`). -/
  | out_of_range
  /-- Undefined behaviour: `vector::operator[]` past the end, dereferencing an empty
  `shared_ptr`, or reading past the end of a character array. -/
  | undefined_behaviour
  deriving DecidableEq

/-- Outcome of a C++ call: a value, or the fault that it ran into. -/
abbrev Result (α : Type) : Type := Except Fault α

instance instDecidableEqResult {α : Type} [DecidableEq α] : DecidableEq (Result α)
  | .ok a, .ok b =>
    if h : a = b then isTrue (by rw [h]) else isFalse (fun h' => h (Except.ok.inj h'))
  | .error e, .error f =>
    if h : e = f then isTrue (by rw [h]) else isFalse (fun h' => h (Except.error.inj h'))
  | .ok _, .error _ => isFalse (fun h => Except.noConfusion h)
  | .error _, .ok _ => isFalse (fun h => Except.noConfusion h)

/-! ## Machine integers -/

/-- Number of values of an `unsigned long` (`size_t`) on the 64-bit targets. -/
def ULONG_MOD : Nat := 2 ^ 64

/-- Subtraction of `unsigned long` values, wrapping modulo `2 ^ 64`. -/
def usub (a b : Nat) : Nat := (a % ULONG_MOD + ULONG_MOD - b % ULONG_MOD) % ULONG_MOD

/-- Conversion of a `size_t` to `int` (32-bit two's complement), as in
`return ring.peer_list.size();` of a function returning `int`. -/
def size_to_int (n : Nat) : Int :=
  if n % 2 ^ 32 < 2 ^ 31 then Int.ofNat (n % 2 ^ 32) else Int.ofNat (n % 2 ^ 32) - 2 ^ 32

/-! ## Data model of the node table -/

/-- Modelled from the spec: the `Node` class of `node.h`, which is not part of the
sources at hand: an identity, a network address and two liveness timestamps. -/
structure Node where
  id : String
  ip : String
  port : Nat
  last_ping : Nat
  last_pong : Nat
  deriving DecidableEq

/-- Modelled from the spec: the type of `Ring::contact_nodes` and `Ring::peer_list`,
declared in `node_table.h`, which is not part of the sources at hand: a mapping from id
to Node (a `std::unordered_map<std::string, std::shared_ptr<Node>>` whose stored pointers
are never empty), kept as a list of entries with pairwise distinct keys. -/
structure NodeMap where
  entries : List (String × Node)
  nodup : (entries.map Prod.fst).Nodup

namespace NodeMap

/-- The empty map. -/
def empty : NodeMap := ⟨[], List.nodup_nil⟩

/-- Keys of the map. -/
def keys (m : NodeMap) : List String := m.entries.map Prod.fst

/-- The C++ `m.find(id)`: the node stored under `id`, `none` standing for `m.end()`. -/
def find (m : NodeMap) (id : String) : Option Node := m.entries.lookup id

/-- The C++ `m.size()`. -/
def size (m : NodeMap) : Nat := m.entries.length

/-- The stored nodes, in iteration order. -/
def values (m : NodeMap) : List Node := m.entries.map Prod.snd

end NodeMap

/-- Modelled from the spec: the `Ring` class of `node_table.h`, which is not part of
the sources at hand. `successor` and `predecessor` are `shared_ptr<Node>` and may be
empty. -/
structure Ring where
  contact_nodes : NodeMap
  peer_list : NodeMap
  successor : Option Node
  predecessor : Option Node

/-- Modelled from the spec: the data members of `NodeTable` (`node_table.h` is not
part of the sources at hand): `tables` is the sequence of rings indexed by level
(a `std::vector<Ring>`). -/
structure NodeTable where
  self_id : String
  self_level : Nat
  tables : List Ring

namespace NodeTable

/-- The constructor `NodeTable::NodeTable(self_id)`: `tables` is default-initialised,
that is empty. -/
def new (self_id : String) : NodeTable := ⟨self_id, 0, []⟩

/-- The expression `tables[level]`: undefined behaviour past the end of the vector. -/
def tables_index (t : NodeTable) (level : Nat) : Result Ring :=
  match t.tables[level]? with
  | some ring => pure ring
  | none => throw Fault.undefined_behaviour

/-- The expression `tables.at(level)`: throws `std::out_of_range` past the end. -/
def tables_at (t : NodeTable) (level : Nat) : Result Ring :=
  match t.tables[level]? with
  | some ring => pure ring
  | none => throw Fault.out_of_range

/-- The expression `this->tables.size() - 1`, evaluated in `unsigned long`. -/
def size_minus_one (t : NodeTable) : Nat := usub t.tables.length 1

/-- The C++ `NodeTable::get_node` (private). -/
def get_node (t : NodeTable) (level : Nat) (id : String) : Result (Option Node) := do
  let ring ← t.tables_index level
  match ring.contact_nodes.find id with
  | some node => pure (some node)
  | none =>
    match ring.peer_list.find id with
    | some node => pure (some node)
    | none => pure none

/-- The C++ `NodeTable::copy_node`: `std::make_shared<Node>(*node)` dereferences `node`, which
is undefined behaviour for an empty pointer; the result is never empty. -/
def copy_node (node : Option Node) : Result Node :=
  match node with
  | some n => pure n
  | none => throw Fault.undefined_behaviour

/-- The C++ `NodeTable::has_node`. -/
def has_node (t : NodeTable) (level : Nat) (id : String) : Result Bool := do
  let ring ← t.tables_index level
  if (ring.contact_nodes.find id).isSome || (ring.peer_list.find id).isSome then
    pure true
  else
    pure false

/-- The C++ `NodeTable::get_node_copy`. -/
def get_node_copy (t : NodeTable) (level : Nat) (id : String) : Result (Option Node) := do
  let node ← t.get_node level id
  if node.isSome then
    let copy ← copy_node node
    pure (some copy)
  else
    pure none

/-- The C++ `NodeTable::is_contact_node`. -/
def is_contact_node (t : NodeTable) (level : Nat) : Bool :=
  if level > t.size_minus_one then
    false
  else if level < t.size_minus_one then
    true
  else
    false

/-- The C++ `NodeTable::get_contact_nodes`; the returned set of fresh copies is a list. -/
def get_contact_nodes (t : NodeTable) (level : Nat) : Result (List Node) := do
  if level > t.size_minus_one then
    pure []
  else
    let ring ← t.tables_at level
    ring.contact_nodes.values.mapM fun node => copy_node (some node)

/-- The C++ `NodeTable::get_successor`; `result` before its declaration is read as the empty
pointer. -/
def get_successor (t : NodeTable) (level : Nat) : Result (Option Node) := do
  if level > t.size_minus_one then
    pure none
  else
    let ring ← t.tables_at level
    let result ← copy_node ring.successor
    pure (some result)

/-- The C++ `NodeTable::get_predecessor`; `result` before its declaration is read as the empty
pointer. -/
def get_predecessor (t : NodeTable) (level : Nat) : Result (Option Node) := do
  if level > t.size_minus_one then
    pure none
  else
    let ring ← t.tables_at level
    let result ← copy_node ring.predecessor
    pure (some result)

/-- The C++ `NodeTable::get_peer_list`; the returned set of fresh copies is a list. -/
def get_peer_list (t : NodeTable) (level : Nat) : Result (List Node) := do
  if level > t.size_minus_one then
    pure []
  else
    let ring ← t.tables_at level
    ring.peer_list.values.mapM fun node => copy_node (some node)

/-- The C++ `NodeTable::get_peer`. -/
def get_peer (t : NodeTable) (level : Nat) (id : String) : Result (Option Node) :=
  if level > t.size_minus_one then
    pure none
  else
    t.get_node_copy level id

/-- The C++ `NodeTable::get_end_id`. -/
def get_end_id (t : NodeTable) (level : Nat) : Result Int := do
  if level > t.size_minus_one then
    pure (-1)
  else
    let ring ← t.tables_at level
    pure (size_to_int ring.peer_list.size)

end NodeTable

/-! ## Framed stream transport -/

/-- One `char` of a `std::string`. -/
abbrev Byte : Type := Fin 256

/-- Byte order of the machine; `std::memcpy` of a `Header` copies its native
representation. -/
inductive ByteOrder where
  | little
  | big
  deriving DecidableEq

/-- What `transport.h`, which is not part of the sources at hand, fixes about the
`Header` type: `width` is `sizeof(Header)`, `order` the byte order of the machine. -/
structure HeaderFormat where
  width : Nat
  order : ByteOrder
  deriving DecidableEq

/-- The `w` low-order bytes of `n`, least significant first. -/
def encodeLE : Nat → Nat → List Byte
  | 0, _ => []
  | w + 1, n => ⟨n % 256, Nat.mod_lt n (by decide)⟩ :: encodeLE w (n / 256)

/-- The number whose bytes, least significant first, are `bs`. -/
def decodeLE : List Byte → Nat
  | [] => 0
  | b :: bs => b.val + 256 * decodeLE bs

/-- The object representation of the `Header` value `n mod 2 ^ (8 * width)`: the
bytes that `std::memcpy(header, &length, sizeof(length))` writes. -/
def header_bytes (hf : HeaderFormat) (n : Nat) : List Byte :=
  match hf.order with
  | ByteOrder.little => encodeLE hf.width n
  | ByteOrder.big => (encodeLE hf.width n).reverse

/-- The `Header` value that `std::memcpy(&header, bytes, sizeof(Header))` reads from
`sizeof(Header)` bytes. -/
def header_value (hf : HeaderFormat) (bs : List Byte) : Nat :=
  match hf.order with
  | ByteOrder.little => decodeLE bs
  | ByteOrder.big => decodeLE bs.reverse

/-- The constructor `std::string(const char*)` applied to a character array: the bytes
before the first zero byte. An array without a zero byte is read past its end, which is
undefined behaviour. -/
def string_of_c_str (array : List Byte) : Result (List Byte) :=
  if (0 : Byte) ∈ array then
    pure (array.takeWhile fun b => b != 0)
  else
    throw Fault.undefined_behaviour

/-- The C++ `BufferItemType`: host, port and raw payload. -/
abbrev BufferItemType : Type := String × Nat × List Byte

/-- The values of `boost::system::error_code` that the code distinguishes. -/
inductive ErrorCode where
  | success
  | eof
  | connection_reset
  | other
  deriving DecidableEq

/-- The state of a `TCPConnection` that `handle_read` reads and writes. `endpoint` is
what `socket.remote_endpoint()` returns, `socket_open` tells whether the socket has
not been closed yet, `reading` whether `read()` has been issued and has not completed,
and `buffer` is the hand-off queue, oldest item first. -/
structure TCPConnection where
  datagram : List Byte
  total_length : Nat
  endpoint : String × Nat
  socket_open : Bool
  reading : Bool
  buffer : List BufferItemType
  deriving DecidableEq

namespace TCPConnection

/-- A connection right after `TCPConnection::Create` and `start()`: nothing received,
one read issued. -/
def fresh (endpoint : String × Nat) : TCPConnection :=
  ⟨[], 0, endpoint, true, true, []⟩

/-- The C++ `TCPConnection::write`: the string `datagram` that is handed to `async_write`. -/
def write (hf : HeaderFormat) (data : List Byte) : Result (List Byte) := do
  let length := data.length % 256 ^ hf.width
  let header := header_bytes hf length
  let head ← string_of_c_str header
  pure (head ++ data)

/-- The C++ `TCPConnection::handle_read`; `data` holds the `bytes_transferred` bytes at the
front of `read_buffer`.

`data.data()` points at `data.size() + 1` characters, the last one being zero, so
the `memcpy` of `sizeof(Header)` bytes is defined as long as
`sizeof(Header) ≤ data.size() + 1`; `data.substr(sizeof(Header))` throws when
`sizeof(Header) > data.size()`. -/
def handle_read (hf : HeaderFormat) (c : TCPConnection) (error : ErrorCode)
    (data : List Byte) : Result TCPConnection :=
  if error = ErrorCode.success ∨ error = ErrorCode.eof ∨ error = ErrorCode.connection_reset then do
    let c1 ← (if c.datagram.isEmpty then do
        if data.length + 1 < hf.width then throw Fault.undefined_behaviour
        let header := header_value hf ((data ++ [0]).take hf.width)
        if data.length < hf.width then throw Fault.out_of_range
        pure { c with total_length := header, datagram := c.datagram ++ data.drop hf.width }
      else
        pure { c with datagram := c.datagram ++ data } : Result TCPConnection)
    if c1.datagram.length ≥ c1.total_length ∨ error = ErrorCode.eof
        ∨ error = ErrorCode.connection_reset then
      pure { c1 with
        socket_open := false
        reading := false
        buffer := c1.buffer ++ [(c1.endpoint.1, c1.endpoint.2, c1.datagram)] }
    else
      pure { c1 with reading := true }
  else
    pure { c with reading := false }

/-- The read state machine run over a sequence of read completions: each completion
is passed to `handle_read` as long as a read is outstanding. (`TCPConnection::read` as
written names `handle_write` as its completion handler; the run delivers the completions
to `handle_read`, where the state machine is written.) -/
def feed (hf : HeaderFormat) : TCPConnection → List (ErrorCode × List Byte) → Result TCPConnection
  | c, [] => pure c
  | c, (error, data) :: rest =>
    if c.reading then
      match handle_read hf c error data with
      | .ok c1 => feed hf c1 rest
      | .error f => throw f
    else
      pure c

end TCPConnection

/-! ## Connection table of the TCP server -/

/-- The C++ `std::to_string(port)` for an `unsigned short`: its decimal digits. -/
def to_string (port : Nat) : String := toString port

/-- What `AsyncTCPServer::send` does after the table lookup. -/
inductive SendAction where
  /-- The C++ `(*conn_iter)->write(data)` on the cached connection. -/
  | write_cached (conn : TCPConnection) (data : List Byte)
  /-- The C++ `resolver.async_resolve(query(ip, std::to_string(port)), ...)`. -/
  | resolve (host service : String) (data : List Byte)
  deriving DecidableEq

/-- The part of `AsyncTCPServer` that `send`, `handle_accept` and `handle_connect`
use: the table `tcp_connections`, most recent entry first. -/
structure AsyncTCPServer where
  tcp_connections : List (String × TCPConnection)

namespace AsyncTCPServer

/-- The key that `AsyncTCPServer::send` looks up: `ip + std::to_string(port)`. -/
def send_key (ip : String) (port : Nat) : String := ip ++ to_string port

/-- The key `conn_id` of `handle_accept`, `handle_connect` and `handle`:
`address + ":" + std::to_string(port)`. -/
def conn_id (ip : String) (port : Nat) : String := ip ++ ":" ++ to_string port

/-- The assignment `tcp_connections[key] = conn`. -/
def assign (s : AsyncTCPServer) (key : String) (conn : TCPConnection) : AsyncTCPServer :=
  ⟨(key, conn) :: s.tcp_connections.filter fun kv => kv.1 != key⟩

/-- The C++ `AsyncTCPServer::send`. -/
def send (s : AsyncTCPServer) (ip : String) (port : Nat) (data : List Byte) : SendAction :=
  match s.tcp_connections.lookup (send_key ip port) with
  | some conn => SendAction.write_cached conn data
  | none => SendAction.resolve ip (to_string port) data

/-- The table update of `AsyncTCPServer::handle_accept`. -/
def handle_accept (s : AsyncTCPServer) (connection : TCPConnection) (error : ErrorCode) :
    AsyncTCPServer :=
  if error = ErrorCode.success then
    s.assign (conn_id connection.endpoint.1 connection.endpoint.2) connection
  else
    s

/-- The table update of the success branch of `AsyncTCPServer::handle_connect`. -/
def handle_connect (s : AsyncTCPServer) (conn : TCPConnection) (error : ErrorCode) :
    AsyncTCPServer :=
  if error = ErrorCode.success then
    s.assign (conn_id conn.endpoint.1 conn.endpoint.2) conn
  else
    s

end AsyncTCPServer

/-! ## Sample states -/

/-- A node used to instantiate the theorems. -/
def sample_node : Node := ⟨"a", "10.0.0.1", 9000, 0, 0⟩

/-- A second node. -/
def sample_peer : Node := ⟨"b", "10.0.0.2", 9000, 0, 0⟩

/-- A ring with the two members `a` and `b`, neighbours of each other as seen from `a`;
`a` is its contact node. -/
def sample_ring : Ring :=
  ⟨⟨[("a", sample_node)], by simp⟩, ⟨[("a", sample_node), ("b", sample_peer)], by simp⟩,
    some sample_peer, some sample_peer⟩

/-- A ring with the single member `a`, hence without successor and predecessor. -/
def sample_top_ring : Ring :=
  ⟨NodeMap.empty, ⟨[("a", sample_node)], by simp⟩, none, none⟩

/-- A table with two rings: `sample_ring` at level 0 and `sample_top_ring` at level 1. -/
def sample_table : NodeTable := ⟨"a", 1, [sample_ring, sample_top_ring]⟩

/-! ## Machine arithmetic -/

theorem usub_one_of_pos {n : Nat} (h0 : 0 < n) (h : n < ULONG_MOD) : usub n 1 = n - 1 := by
  unfold usub
  unfold ULONG_MOD at *
  omega

theorem usub_zero_one : usub 0 1 = ULONG_MOD - 1 := by
  unfold usub ULONG_MOD
  omega

/-! ## Maps -/

namespace NodeMap

theorem lookup_isSome_iff_mem_keys (l : List (String × Node)) (id : String) :
    (l.lookup id).isSome = true ↔ id ∈ l.map Prod.fst := by
  induction l with
  | nil => simp
  | cons kv l ih =>
    obtain ⟨k, v⟩ := kv
    by_cases h : id = k
    · subst h
      simp
    · have hb : (id == k) = false := by simpa using h
      simp [List.lookup_cons, hb, ih, h]

theorem lookup_eq_some_iff_mem (l : List (String × Node)) (hl : (l.map Prod.fst).Nodup)
    (id : String) (n : Node) : l.lookup id = some n ↔ (id, n) ∈ l := by
  induction l with
  | nil => simp
  | cons kv l ih =>
    obtain ⟨k, v⟩ := kv
    simp only [List.map_cons, List.nodup_cons] at hl
    by_cases h : id = k
    · subst h
      have hnot : (id, n) ∉ l := fun hm => hl.1 (List.mem_map_of_mem Prod.fst hm)
      simp only [List.lookup_cons_self, Option.some.injEq, List.mem_cons, Prod.mk.injEq,
        true_and, hnot, or_false]
      exact eq_comm
    · have hb : (id == k) = false := by simpa using h
      simp [List.lookup_cons, hb, ih hl.2, h]

theorem find_isSome_iff (m : NodeMap) (id : String) :
    (m.find id).isSome = true ↔ id ∈ m.keys :=
  lookup_isSome_iff_mem_keys m.entries id

theorem find_eq_some_iff (m : NodeMap) (id : String) (n : Node) :
    m.find id = some n ↔ (id, n) ∈ m.entries :=
  lookup_eq_some_iff_mem m.entries m.nodup id n

theorem find_eq_none_iff (m : NodeMap) (id : String) :
    m.find id = none ↔ id ∉ m.keys := by
  rw [← find_isSome_iff]
  cases m.find id <;> simp

end NodeMap

namespace NodeTable

theorem tables_index_of_lt (t : NodeTable) (level : Nat) (h : level < t.tables.length) :
    t.tables_index level = .ok t.tables[level] := by
  simp [tables_index, List.getElem?_eq_getElem h, pure, Except.pure]

theorem tables_at_of_lt (t : NodeTable) (level : Nat) (h : level < t.tables.length) :
    t.tables_at level = .ok t.tables[level] := by
  simp [tables_at, List.getElem?_eq_getElem h, pure, Except.pure]

theorem tables_index_of_ge (t : NodeTable) (level : Nat) (h : t.tables.length ≤ level) :
    t.tables_index level = .error Fault.undefined_behaviour := by
  simp [tables_index, List.getElem?_eq_none h, throw, throwThe, MonadExceptOf.throw]

theorem tables_at_of_ge (t : NodeTable) (level : Nat) (h : t.tables.length ≤ level) :
    t.tables_at level = .error Fault.out_of_range := by
  simp [tables_at, List.getElem?_eq_none h, throw, throwThe, MonadExceptOf.throw]

theorem has_node_of_lt (t : NodeTable) (level : Nat) (id : String)
    (h : level < t.tables.length) :
    t.has_node level id
      = .ok ((t.tables[level].contact_nodes.find id).isSome
          || (t.tables[level].peer_list.find id).isSome) := by
  unfold has_node
  rw [tables_index_of_lt t level h]
  cases h1 : ((t.tables[level].contact_nodes.find id).isSome
      || (t.tables[level].peer_list.find id).isSome) <;>
    simp [bind, Except.bind, pure, Except.pure, h1]

theorem get_node_copy_of_lt (t : NodeTable) (level : Nat) (id : String)
    (h : level < t.tables.length) :
    t.get_node_copy level id
      = .ok ((t.tables[level].contact_nodes.find id).or (t.tables[level].peer_list.find id)) := by
  unfold get_node_copy get_node
  rw [tables_index_of_lt t level h]
  cases h1 : t.tables[level].contact_nodes.find id <;>
    cases h2 : t.tables[level].peer_list.find id <;>
    simp [bind, Except.bind, pure, Except.pure, h1, h2, copy_node]


theorem size_minus_one_new (self_id : String) :
    (NodeTable.new self_id).size_minus_one = ULONG_MOD - 1 := by
  simp [size_minus_one, NodeTable.new, usub_zero_one]

theorem size_minus_one_of_pos (t : NodeTable) (h0 : 0 < t.tables.length)
    (h : t.tables.length < ULONG_MOD) : t.size_minus_one = t.tables.length - 1 :=
  usub_one_of_pos h0 h

/-- With at least one ring, `is_contact_node` is the comparison of the spec: true exactly
below the top level `number_of_rings - 1`. -/
theorem is_contact_node_of_pos (t : NodeTable) (level : Nat) (h0 : 0 < t.tables.length)
    (h : t.tables.length < ULONG_MOD) :
    t.is_contact_node level = decide (level + 1 < t.tables.length) := by
  unfold is_contact_node
  rw [size_minus_one_of_pos t h0 h]
  by_cases h1 : level > t.tables.length - 1
  · have h2 : ¬ level + 1 < t.tables.length := by omega
    simp [h1, h2]
  · by_cases h3 : level < t.tables.length - 1
    · have h2 : level + 1 < t.tables.length := by omega
      simp [h1, h2, h3]
    · have h2 : ¬ level + 1 < t.tables.length := by omega
      simp [h1, h2, h3]

/-- With zero rings, `is_contact_node` answers true for every level but the largest
`unsigned long`. -/
theorem is_contact_node_new (self_id : String) (level : Nat) (h : level < ULONG_MOD - 1) :
    (NodeTable.new self_id).is_contact_node level = true := by
  unfold is_contact_node
  rw [size_minus_one_new]
  have h1 : ¬ level > ULONG_MOD - 1 := by omega
  simp [h1, h]

/-- With at least one ring, the guarded getters answer empty, and `get_end_id` answers
`-1`, at every level past the last ring. -/
theorem getters_out_of_range_of_pos (t : NodeTable) (level : Nat) (h0 : 0 < t.tables.length)
    (h : t.tables.length < ULONG_MOD) (hl : t.tables.length ≤ level) :
    t.get_peer_list level = .ok [] ∧ t.get_contact_nodes level = .ok []
      ∧ t.get_end_id level = .ok (-1) ∧ t.get_successor level = .ok none
      ∧ t.get_predecessor level = .ok none := by
  have hg : level > t.size_minus_one := by
    rw [size_minus_one_of_pos t h0 h]
    omega
  simp [get_peer_list, get_contact_nodes, get_end_id, get_successor, get_predecessor, hg,
    pure, Except.pure]

/-- C1 (the code at the failing input): a freshly constructed table has zero rings, so
level 0 is outside its range, and `is_contact_node(0)` answers true, because
`tables.size() - 1` wraps to the largest `unsigned long`. -/
theorem is_contact_node_zero_rings (self_id : String) :
    (NodeTable.new self_id).tables.length = 0
      ∧ (NodeTable.new self_id).is_contact_node 0 = true := by
  refine ⟨rfl, is_contact_node_new self_id 0 ?_⟩
  unfold ULONG_MOD
  omega

/-- C2 (the code at the failing input): on a table with zero rings `get_peer_list`,
`get_contact_nodes` and `get_end_id` throw `std::out_of_range` at every level, instead of
answering empty and `-1`: the guard `level > tables.size() - 1` compares with the largest
`unsigned long` and never holds. -/
theorem getters_zero_rings_throw (self_id : String) (level : Nat) (h : level < ULONG_MOD) :
    (NodeTable.new self_id).get_peer_list level = .error Fault.out_of_range
      ∧ (NodeTable.new self_id).get_contact_nodes level = .error Fault.out_of_range
      ∧ (NodeTable.new self_id).get_end_id level = .error Fault.out_of_range := by
  have hg : ¬ level > (NodeTable.new self_id).size_minus_one := by
    rw [size_minus_one_new]
    omega
  have ha : (NodeTable.new self_id).tables_at level = .error Fault.out_of_range :=
    tables_at_of_ge _ level (by simp [NodeTable.new])
  simp [get_peer_list, get_contact_nodes, get_end_id, hg, ha, bind, Except.bind]

theorem getters_zero_rings_throw_witness :
    0 < ULONG_MOD
      ∧ (NodeTable.new "self").get_peer_list 0 = .error Fault.out_of_range
      ∧ (NodeTable.new "self").get_contact_nodes 0 = .error Fault.out_of_range
      ∧ (NodeTable.new "self").get_end_id 0 = .error Fault.out_of_range :=
  ⟨by decide, getters_zero_rings_throw "self" 0 (by decide)⟩

/-- C3 (the code at the failing inputs): at every level past the last ring `has_node` and
`get_node_copy` index `tables[level]` without a guard, which is the failing branch, instead
of answering false and empty. -/
theorem has_node_out_of_range_faults (t : NodeTable) (level : Nat) (id : String)
    (h : t.tables.length ≤ level) :
    t.has_node level id = .error Fault.undefined_behaviour
      ∧ t.get_node_copy level id = .error Fault.undefined_behaviour := by
  have hi := tables_index_of_ge t level h
  simp [has_node, get_node_copy, get_node, hi, bind, Except.bind]

theorem has_node_out_of_range_faults_witness :
    sample_table.tables.length ≤ 2
      ∧ sample_table.has_node 2 "a" = .error Fault.undefined_behaviour
      ∧ sample_table.get_node_copy 2 "a" = .error Fault.undefined_behaviour :=
  ⟨by decide, has_node_out_of_range_faults sample_table 2 "a" (by decide)⟩

/-- C7 (the code at the failing inputs, and the part of the claim that holds): at a valid
level whose ring has no successor (predecessor) `get_successor` (`get_predecessor`)
dereferences the empty pointer in `copy_node` instead of answering empty; when the
reference is present the answer is a copy equal to that node. -/
theorem get_successor_of_valid_level (t : NodeTable) (level : Nat)
    (hlen : t.tables.length < ULONG_MOD) (h : level < t.tables.length) :
    (t.tables[level].successor = none →
        t.get_successor level = .error Fault.undefined_behaviour)
      ∧ (t.tables[level].predecessor = none →
        t.get_predecessor level = .error Fault.undefined_behaviour)
      ∧ (∀ n, t.tables[level].successor = some n → t.get_successor level = .ok (some n))
      ∧ (∀ n, t.tables[level].predecessor = some n →
        t.get_predecessor level = .ok (some n)) := by
  have hg : ¬ level > t.size_minus_one := by
    rw [size_minus_one_of_pos t (by omega) hlen]
    omega
  have ha := tables_at_of_lt t level h
  refine ⟨?_, ?_, ?_, ?_⟩
  · intro hs
    simp [get_successor, hg, ha, hs, copy_node, bind, Except.bind, throw, throwThe,
      MonadExceptOf.throw]
  · intro hs
    simp [get_predecessor, hg, ha, hs, copy_node, bind, Except.bind, throw, throwThe,
      MonadExceptOf.throw]
  · intro n hs
    simp [get_successor, hg, ha, hs, copy_node, bind, Except.bind, pure, Except.pure]
  · intro n hs
    simp [get_predecessor, hg, ha, hs, copy_node, bind, Except.bind, pure, Except.pure]

theorem get_successor_of_valid_level_witness :
    sample_table.tables.length < ULONG_MOD ∧ 1 < sample_table.tables.length
      ∧ sample_table.get_successor 1 = .error Fault.undefined_behaviour
      ∧ sample_table.get_predecessor 1 = .error Fault.undefined_behaviour
      ∧ sample_table.get_successor 0 = .ok (some sample_peer) :=
  ⟨by decide, by decide,
    (get_successor_of_valid_level sample_table 1 (by decide) (by decide)).1 rfl,
    (get_successor_of_valid_level sample_table 1 (by decide) (by decide)).2.1 rfl,
    (get_successor_of_valid_level sample_table 0 (by decide) (by decide)).2.2.1 _ rfl⟩

/-- C8: at a valid level `L`, `has_node(L, id)` answers true exactly when `id` is a key of
`contact_nodes` or of `peer_list` of the ring at `L`; it answers true exactly when
`get_node_copy(L, id)` is non-empty, and false exactly when it is empty; and the copy is
the node stored under `id` in `contact_nodes`, or, when `contact_nodes` has no such key,
the node stored under `id` in `peer_list`. Neither call fails. -/
theorem has_node_iff_get_node_copy (t : NodeTable) (L : Nat) (id : String)
    (hL : L < t.tables.length) :
    t.has_node L id
        = .ok (decide (id ∈ t.tables[L].contact_nodes.keys ∨ id ∈ t.tables[L].peer_list.keys))
      ∧ (t.has_node L id = .ok true ↔ ∃ n, t.get_node_copy L id = .ok (some n))
      ∧ (t.has_node L id = .ok false ↔ t.get_node_copy L id = .ok none)
      ∧ ∀ n, t.get_node_copy L id = .ok (some n) ↔
          ((id, n) ∈ t.tables[L].contact_nodes.entries
            ∨ (id ∉ t.tables[L].contact_nodes.keys
              ∧ (id, n) ∈ t.tables[L].peer_list.entries)) := by
  rw [has_node_of_lt t L id hL, get_node_copy_of_lt t L id hL]
  have hc := NodeMap.find_isSome_iff t.tables[L].contact_nodes id
  have hp := NodeMap.find_isSome_iff t.tables[L].peer_list id
  have hcn := NodeMap.find_eq_none_iff t.tables[L].contact_nodes id
  have hce := NodeMap.find_eq_some_iff t.tables[L].contact_nodes id
  have hpe := NodeMap.find_eq_some_iff t.tables[L].peer_list id
  refine ⟨?_, ?_, ?_, ?_⟩
  · congr 1
    rw [Bool.eq_iff_iff]
    simp only [Bool.or_eq_true, decide_eq_true_eq, hc, hp]
  · cases t.tables[L].contact_nodes.find id <;> cases t.tables[L].peer_list.find id <;> simp
  · cases t.tables[L].contact_nodes.find id <;> cases t.tables[L].peer_list.find id <;> simp
  · intro n
    rw [← hcn, ← hce, ← hpe]
    cases t.tables[L].contact_nodes.find id <;> cases t.tables[L].peer_list.find id <;> simp

theorem has_node_iff_get_node_copy_witness :
    0 < sample_table.tables.length
      ∧ sample_table.has_node 0 "b" = .ok true
      ∧ sample_table.get_node_copy 0 "b" = .ok (some sample_peer)
      ∧ sample_table.has_node 0 "c" = .ok false :=
  ⟨by decide,
    (has_node_iff_get_node_copy sample_table 0 "b" (by decide)).1.trans (by decide),
    ((has_node_iff_get_node_copy sample_table 0 "b" (by decide)).2.2.2 _).2
      (Or.inr ⟨by decide, by decide⟩),
    (has_node_iff_get_node_copy sample_table 0 "c" (by decide)).1.trans (by decide)⟩

end NodeTable

/-! ## Header encoding -/

theorem encodeLE_length (w n : Nat) : (encodeLE w n).length = w := by
  induction w generalizing n with
  | zero => rfl
  | succ w ih => simp [encodeLE, ih]

theorem decodeLE_encodeLE (w n : Nat) : decodeLE (encodeLE w n) = n % 256 ^ w := by
  induction w generalizing n with
  | zero => simp [encodeLE, decodeLE, Nat.mod_one]
  | succ w ih =>
    simp only [encodeLE, decodeLE, ih]
    rw [pow_succ, Nat.mul_comm (256 ^ w) 256, Nat.mod_mul]

theorem encodeLE_zero (w : Nat) : encodeLE w 0 = List.replicate w (0 : Byte) := by
  induction w with
  | zero => rfl
  | succ w ih =>
    simp only [encodeLE, Nat.zero_div, ih, List.replicate_succ]
    rfl

theorem header_bytes_length (hf : HeaderFormat) (n : Nat) :
    (header_bytes hf n).length = hf.width := by
  unfold header_bytes
  cases hf.order <;> simp [encodeLE_length]

theorem header_value_header_bytes (hf : HeaderFormat) (n : Nat) :
    header_value hf (header_bytes hf n) = n % 256 ^ hf.width := by
  unfold header_value header_bytes
  cases hf.order <;> simp [decodeLE_encodeLE]

theorem header_bytes_zero (hf : HeaderFormat) :
    header_bytes hf 0 = List.replicate hf.width (0 : Byte) := by
  unfold header_bytes
  cases hf.order <;> simp [encodeLE_zero]

theorem takeWhile_nonzero_length_lt (l : List Byte) (h : (0 : Byte) ∈ l) :
    (l.takeWhile fun b => b != 0).length < l.length := by
  induction l with
  | nil => simp at h
  | cons a l ih =>
    by_cases ha : a = 0
    · subst ha
      simp [List.takeWhile_cons]
    · have hm : (0 : Byte) ∈ l := by
        rcases List.mem_cons.1 h with h0 | h0
        · exact absurd h0.symm ha
        · exact h0
      have := ih hm
      simp only [List.takeWhile_cons, bne_iff_ne, ne_eq, ha, not_false_eq_true, decide_True,
        ↓reduceIte, List.length_cons]
      omega

theorem string_of_c_str_length_lt (array out : List Byte)
    (h : string_of_c_str array = .ok out) : out.length < array.length := by
  unfold string_of_c_str at h
  by_cases hz : (0 : Byte) ∈ array
  · simp only [hz, ↓reduceIte, pure, Except.pure, Except.ok.injEq] at h
    rw [← h]
    exact takeWhile_nonzero_length_lt array hz
  · simp [hz, throw, throwThe, MonadExceptOf.throw] at h

namespace TCPConnection

/-- The buffer that `write` builds is always shorter than `sizeof(Header)` plus the
payload length. -/
theorem write_length_lt (hf : HeaderFormat) (data buffer : List Byte)
    (h : write hf data = .ok buffer) : buffer.length < hf.width + data.length := by
  unfold write at h
  cases hs : string_of_c_str (header_bytes hf (data.length % 256 ^ hf.width)) with
  | error f => simp [hs, bind, Except.bind] at h
  | ok head =>
    simp only [hs, bind, Except.bind, pure, Except.pure, Except.ok.injEq] at h
    have := string_of_c_str_length_lt _ _ hs
    rw [header_bytes_length] at this
    rw [← h, List.length_append]
    omega

/-- For the empty payload `write` builds the empty buffer. -/
theorem write_nil (hf : HeaderFormat) (h : 0 < hf.width) : write hf [] = .ok [] := by
  obtain ⟨w, o⟩ := hf
  cases w with
  | zero => simp at h
  | succ w =>
    simp [write, header_bytes_zero, string_of_c_str, List.replicate_succ, bind, Except.bind,
      pure, Except.pure]

/-- A successful first read of a whole header and of `Q`: the header is consumed, `Q` is
the accumulated payload, and the connection completes or reads on. -/
theorem handle_read_first (hf : HeaderFormat) (c : TCPConnection) (N : Nat) (Q : List Byte)
    (hc : c.datagram = []) (hN : N < 256 ^ hf.width) :
    handle_read hf c ErrorCode.success (header_bytes hf N ++ Q)
      = .ok (if N ≤ Q.length then
          { c with
            total_length := N
            datagram := Q
            socket_open := false
            reading := false
            buffer := c.buffer ++ [(c.endpoint.1, c.endpoint.2, Q)] }
        else { c with total_length := N, datagram := Q, reading := true }) := by
  have hlen := header_bytes_length hf N
  have h1 : ¬ (header_bytes hf N ++ Q).length + 1 < hf.width := by
    rw [List.length_append]
    omega
  have h2 : ¬ (header_bytes hf N ++ Q).length < hf.width := by
    rw [List.length_append]
    omega
  have h3 : ((header_bytes hf N ++ Q) ++ [0]).take hf.width = header_bytes hf N := by
    rw [List.append_assoc, List.take_append_of_le_length (by omega), List.take_of_length_le]
    omega
  have h4 : (header_bytes hf N ++ Q).drop hf.width = Q := by
    rw [List.drop_append_of_le_length (by omega), List.drop_of_length_le (by omega)]
    rfl
  have h5 : header_value hf (header_bytes hf N) = N := by
    rw [header_value_header_bytes, Nat.mod_eq_of_lt hN]
  unfold handle_read
  simp only [true_or, ↓reduceIte, hc, List.isEmpty_nil, h1, h2, h3, h4, h5, List.nil_append,
    bind, Except.bind, pure, Except.pure, reduceCtorEq, or_false, ge_iff_le]
  split <;> rfl

/-- A read that finds the accumulated payload empty and brings fewer bytes than a header
fails: the `memcpy` reads past the characters of `data`, or `substr` throws. -/
theorem handle_read_short (hf : HeaderFormat) (c : TCPConnection) (error : ErrorCode)
    (data : List Byte) (hc : c.datagram = []) (he : error ≠ ErrorCode.other)
    (hd : data.length < hf.width) :
    handle_read hf c error data
      = .error (if data.length + 1 < hf.width then Fault.undefined_behaviour
          else Fault.out_of_range) := by
  have he2 : error = ErrorCode.success ∨ error = ErrorCode.eof
      ∨ error = ErrorCode.connection_reset := by
    cases error <;> simp at he ⊢
  unfold handle_read
  by_cases h1 : data.length + 1 < hf.width
  · simp [he2, hc, h1, bind, Except.bind, throw, throwThe, MonadExceptOf.throw]
  · simp [he2, hc, h1, hd, bind, Except.bind, throw, throwThe, MonadExceptOf.throw, pure,
      Except.pure]

/-- A read that finds the accumulated payload empty treats its bytes as a header: if it
succeeds, the accumulated payload is what follows the first `sizeof(Header)` bytes, and
nothing else can have been enqueued. -/
theorem handle_read_of_empty (hf : HeaderFormat) (c c1 : TCPConnection) (error : ErrorCode)
    (data : List Byte) (hc : c.datagram = []) (h : handle_read hf c error data = .ok c1) :
    c1.buffer = c.buffer
      ∨ c1.buffer = c.buffer ++ [(c.endpoint.1, c.endpoint.2, data.drop hf.width)] := by
  unfold handle_read at h
  by_cases he : error = ErrorCode.success ∨ error = ErrorCode.eof
      ∨ error = ErrorCode.connection_reset
  · simp only [he, ↓reduceIte, hc, List.isEmpty_nil, List.nil_append] at h
    by_cases h1 : data.length + 1 < hf.width
    · simp [h1, bind, Except.bind, throw, throwThe, MonadExceptOf.throw] at h
    · by_cases h2 : data.length < hf.width
      · simp [h1, h2, bind, Except.bind, throw, throwThe, MonadExceptOf.throw, pure,
          Except.pure] at h
      · simp only [h1, h2, ↓reduceIte, bind, Except.bind, pure, Except.pure] at h
        split at h
        · simp only [Except.ok.injEq] at h
          right
          rw [← h]
        · simp only [Except.ok.injEq] at h
          left
          rw [← h]
  · simp only [he, ↓reduceIte, pure, Except.pure, Except.ok.injEq] at h
    left
    rw [← h]

theorem one_lt_header_range (hf : HeaderFormat) (hw : 0 < hf.width) : 1 < 256 ^ hf.width :=
  Nat.one_lt_pow (by omega) (by decide)

/-- The first read when it brings exactly the header of a non-empty message: the
accumulated payload stays empty and another read is issued. -/
theorem handle_read_header_only (hf : HeaderFormat) (c : TCPConnection) (N : Nat)
    (hc : c.datagram = []) (h0 : 0 < N) (hN : N < 256 ^ hf.width) :
    handle_read hf c ErrorCode.success (header_bytes hf N)
      = .ok { c with total_length := N, datagram := [], reading := true } := by
  have h := handle_read_first hf c N [] hc hN
  rw [List.append_nil] at h
  rw [h]
  have : ¬ N ≤ ([] : List Byte).length := by
    simp only [List.length_nil]
    omega
  rw [if_neg this]

/-- C4 (the code at the failing inputs): the buffer that `write` builds is never
`header(N) + P`. Whenever `write` builds a buffer at all it is shorter than
`sizeof(Header) + N`, because `std::string(header)` stops at the first zero byte of the
header; for the empty payload the buffer is empty. -/
theorem write_not_framed (hf : HeaderFormat) (data : List Byte) (hw : 0 < hf.width) :
    write hf data ≠ .ok (header_bytes hf data.length ++ data)
      ∧ (∀ buffer, write hf data = .ok buffer → buffer.length < hf.width + data.length)
      ∧ write hf [] = .ok [] := by
  refine ⟨?_, fun buffer h => write_length_lt hf data buffer h, write_nil hf hw⟩
  intro h
  have := write_length_lt hf data _ h
  rw [List.length_append, header_bytes_length] at this
  omega

theorem write_not_framed_witness :
    0 < (HeaderFormat.mk 4 ByteOrder.little).width
      ∧ write ⟨4, ByteOrder.little⟩ [104, 105] = .ok [2, 104, 105]
      ∧ write ⟨4, ByteOrder.little⟩ [104, 105]
          ≠ .ok (header_bytes ⟨4, ByteOrder.little⟩ 2 ++ [104, 105])
      ∧ write ⟨4, ByteOrder.little⟩ [] = .ok [] :=
  ⟨by decide, by decide,
    (write_not_framed ⟨4, ByteOrder.little⟩ [104, 105] (by decide)).1,
    (write_not_framed ⟨4, ByteOrder.little⟩ [104, 105] (by decide)).2.2⟩

/-- C5 (the code at the failing inputs): for the one-byte payload `[b]`, split into the
chunk `header(1)` and the chunk `[b]`, the run never ends with `[b]` enqueued: after the
first chunk the accumulated payload is still empty, so the second chunk is taken for a
header again. -/
theorem feed_header_then_payload (hf : HeaderFormat) (endpoint : String × Nat) (b : Byte)
    (hw : 0 < hf.width) :
    ¬ ∃ c, feed hf (fresh endpoint)
          [(ErrorCode.success, header_bytes hf 1), (ErrorCode.success, [b])] = .ok c
        ∧ c.buffer = [(endpoint.1, endpoint.2, [b])] := by
  rintro ⟨c, hrun, hbuf⟩
  have h1 := handle_read_header_only hf (fresh endpoint) 1 rfl (by omega)
    (one_lt_header_range hf hw)
  simp only [feed, fresh, ↓reduceIte] at hrun
  simp only [fresh] at h1
  rw [h1] at hrun
  simp only [↓reduceIte] at hrun
  cases h2 : handle_read hf ⟨[], 1, endpoint, true, true, []⟩ ErrorCode.success [b] with
  | error f =>
    rw [h2] at hrun
    simp [throw, throwThe, MonadExceptOf.throw] at hrun
  | ok c1 =>
    rw [h2] at hrun
    simp only [pure, Except.pure, Except.ok.injEq] at hrun
    subst hrun
    have hd : ([b] : List Byte).drop hf.width = [] :=
      List.drop_of_length_le (by simpa using hw)
    rcases handle_read_of_empty hf _ c1 _ _ rfl h2 with h3 | h3
    · rw [h3] at hbuf
      simp at hbuf
    · rw [h3, hd] at hbuf
      simp at hbuf

theorem feed_header_then_payload_witness :
    0 < (HeaderFormat.mk 4 ByteOrder.little).width
      ∧ feed ⟨4, ByteOrder.little⟩ (fresh ("10.0.0.1", 9000))
          [(ErrorCode.success, header_bytes ⟨4, ByteOrder.little⟩ 1),
            (ErrorCode.success, [7])] = .error Fault.undefined_behaviour
      ∧ ¬ ∃ c, feed ⟨4, ByteOrder.little⟩ (fresh ("10.0.0.1", 9000))
            [(ErrorCode.success, header_bytes ⟨4, ByteOrder.little⟩ 1),
              (ErrorCode.success, [7])] = .ok c
          ∧ c.buffer = [("10.0.0.1", 9000, [7])] :=
  ⟨by decide, by decide,
    feed_header_then_payload ⟨4, ByteOrder.little⟩ ("10.0.0.1", 9000) 7 (by decide)⟩

/-- C6 (the code at the failing inputs): after a read that brought exactly `header(N)`,
`N ≥ 1`, and no payload byte (`M = 0`), a disconnect completion without bytes makes
`handle_read` fail: the accumulated payload is empty, so the header is read again, from
an empty string. No message is enqueued. -/
theorem feed_header_then_disconnect (hf : HeaderFormat) (endpoint : String × Nat) (N : Nat)
    (error : ErrorCode) (hw : 0 < hf.width) (h0 : 0 < N) (hN : N < 256 ^ hf.width)
    (he : error = ErrorCode.eof ∨ error = ErrorCode.connection_reset) :
    feed hf (fresh endpoint) [(ErrorCode.success, header_bytes hf N), (error, [])]
      = .error (if 1 < hf.width then Fault.undefined_behaviour else Fault.out_of_range) := by
  have h1 := handle_read_header_only hf (fresh endpoint) N rfl h0 hN
  have hne : error ≠ ErrorCode.other := by
    rcases he with he | he <;> simp [he]
  have h2 := handle_read_short hf ⟨[], N, endpoint, true, true, []⟩ error [] rfl hne
    (by simpa using hw)
  simp only [fresh] at h1
  simp only [feed, fresh, ↓reduceIte]
  rw [h1]
  simp only [↓reduceIte]
  rw [h2]
  simp [throw, throwThe, MonadExceptOf.throw]

theorem feed_header_then_disconnect_witness :
    0 < (HeaderFormat.mk 4 ByteOrder.little).width ∧ 0 < 3 ∧ 3 < 256 ^ 4
      ∧ feed ⟨4, ByteOrder.little⟩ (fresh ("10.0.0.1", 9000))
          [(ErrorCode.success, header_bytes ⟨4, ByteOrder.little⟩ 3), (ErrorCode.eof, [])]
        = .error Fault.undefined_behaviour :=
  ⟨by decide, by decide, by decide,
    feed_header_then_disconnect ⟨4, ByteOrder.little⟩ ("10.0.0.1", 9000) 3 ErrorCode.eof
      (by decide) (by decide) (by decide) (Or.inl rfl)⟩

/-- C10: a successful read completion that finds no accumulated payload and brings
`header(N)` followed by `Q`, with `|Q| ≥ N` and `|Q| ≥ 1`, enqueues exactly one message,
whose payload is all of `Q`, and closes the socket; nothing is cut off at the declared
length `N`. -/
theorem handle_read_never_truncates (hf : HeaderFormat) (c : TCPConnection) (N : Nat)
    (Q : List Byte) (hc : c.datagram = []) (hN : N < 256 ^ hf.width) (hQ : N ≤ Q.length)
    (_h1 : 1 ≤ Q.length) :
    handle_read hf c ErrorCode.success (header_bytes hf N ++ Q)
      = .ok { c with
          total_length := N
          datagram := Q
          socket_open := false
          reading := false
          buffer := c.buffer ++ [(c.endpoint.1, c.endpoint.2, Q)] } := by
  rw [handle_read_first hf c N Q hc hN, if_pos hQ]

theorem handle_read_never_truncates_witness :
    (fresh ("10.0.0.1", 9000)).datagram = [] ∧ 1 < 256 ^ 4 ∧ 1 ≤ [7, 8, (9 : Byte)].length
      ∧ handle_read ⟨4, ByteOrder.little⟩ (fresh ("10.0.0.1", 9000)) ErrorCode.success
          (header_bytes ⟨4, ByteOrder.little⟩ 1 ++ [7, 8, 9])
        = .ok ⟨[7, 8, 9], 1, ("10.0.0.1", 9000), false, false,
            [("10.0.0.1", 9000, [7, 8, 9])]⟩ :=
  ⟨rfl, by decide, by decide,
    handle_read_never_truncates ⟨4, ByteOrder.little⟩ (fresh ("10.0.0.1", 9000)) 1 [7, 8, 9]
      rfl (by decide) (by decide) (by decide)⟩

end TCPConnection

namespace AsyncTCPServer

theorem send_key_ne_conn_id (ip : String) (port : Nat) : send_key ip port ≠ conn_id ip port := by
  intro h
  have hl := congrArg String.length h
  simp only [send_key, conn_id, String.length_append] at hl
  have h1 : (":" : String).length = 1 := rfl
  omega

/-- C9 (the code at the failing inputs): for every host and port the key that `send`
looks up, `ip + std::to_string(port)`, differs from the key `ip + ":" +
std::to_string(port)` under which `handle_accept` and `handle_connect` store the
connection; so right after either of them stored a connection to the endpoint, `send`
to that endpoint takes the resolve-and-connect branch. -/
theorem send_misses_cached_connection (conn : TCPConnection) (data : List Byte) :
    send_key conn.endpoint.1 conn.endpoint.2 ≠ conn_id conn.endpoint.1 conn.endpoint.2
      ∧ send (handle_accept ⟨[]⟩ conn ErrorCode.success) conn.endpoint.1 conn.endpoint.2 data
          = SendAction.resolve conn.endpoint.1 (to_string conn.endpoint.2) data
      ∧ send (handle_connect ⟨[]⟩ conn ErrorCode.success) conn.endpoint.1 conn.endpoint.2 data
          = SendAction.resolve conn.endpoint.1 (to_string conn.endpoint.2) data := by
  have hne := send_key_ne_conn_id conn.endpoint.1 conn.endpoint.2
  have hb : (send_key conn.endpoint.1 conn.endpoint.2
      == conn_id conn.endpoint.1 conn.endpoint.2) = false := by
    simpa using hne
  refine ⟨hne, ?_, ?_⟩
  · simp [send, handle_accept, assign, List.lookup, hb]
  · simp [send, handle_connect, assign, List.lookup, hb]

/-- The keys at a concrete endpoint. -/
theorem send_key_example :
    send_key "127.0.0.1" 80 = "127.0.0.180" ∧ conn_id "127.0.0.1" 80 = "127.0.0.1:80" := by
  decide

end AsyncTCPServer

namespace TCPConnection

/-- Once the accumulated payload is non-empty, successful reads of non-empty chunks that
together bring the missing bytes are appended, and the last of them completes the
connection with one enqueued message. -/
theorem feed_accumulate (hf : HeaderFormat) (endpoint : String × Nat) (N : Nat)
    (queue : List BufferItemType) (rest : List (List Byte)) :
    ∀ D : List Byte, D ≠ [] → rest ≠ [] → (∀ d ∈ rest, d ≠ []) →
      D.length + rest.flatten.length = N →
      feed hf ⟨D, N, endpoint, true, true, queue⟩ (rest.map fun d => (ErrorCode.success, d))
        = .ok ⟨D ++ rest.flatten, N, endpoint, false, false,
            queue ++ [(endpoint.1, endpoint.2, D ++ rest.flatten)]⟩ := by
  induction rest with
  | nil => intro D _ h; exact absurd rfl h
  | cons d rest ih =>
    intro D hD _ hne hlen
    have hDe : D.isEmpty = false := by
      cases D with
      | nil => exact absurd rfl hD
      | cons a l => rfl
    simp only [List.flatten_cons, List.length_append] at hlen
    cases rest with
    | nil =>
      have hge : N ≤ D.length + d.length := by
        simp only [List.flatten_nil, List.length_nil] at hlen
        omega
      simp [feed, handle_read, hDe, hge, pure, Except.pure, bind, Except.bind]
    | cons d1 rest1 =>
      have hd1 : d1 ≠ [] := hne d1 (by simp)
      have hd1len : 0 < d1.length := List.length_pos.2 hd1
      have hlt : ¬ N ≤ (D ++ d).length := by
        simp only [List.flatten_cons, List.length_append] at hlen
        rw [List.length_append]
        omega
      have hih := ih (D ++ d) (by simp [hD]) (by simp)
        (fun x hx => hne x (List.mem_cons_of_mem d hx))
        (by simp only [List.length_append] at hlen ⊢; omega)
      have hstep : handle_read hf ⟨D, N, endpoint, true, true, queue⟩ ErrorCode.success d
          = .ok ⟨D ++ d, N, endpoint, true, true, queue⟩ := by
        have hlt2 : ¬ N ≤ D.length + d.length := by
          rw [List.length_append] at hlt
          exact hlt
        simp [handle_read, hDe, hlt2, pure, Except.pure, bind, Except.bind]
      rw [List.map_cons, feed]
      simp only [↓reduceIte, hstep]
      rw [hih]
      simp [List.append_assoc]

/-- The part of the framing round trip that the code delivers: when a payload `P` that is
not empty is sent as `header(|P|) + P` and the first read brings the whole header and at
least one payload byte, then, however the rest is split into non-empty chunks, the run
enqueues exactly one message, with payload `P`, and closes the socket. -/
theorem feed_roundtrip (hf : HeaderFormat) (endpoint : String × Nat) (P first : List Byte)
    (rest : List (List Byte)) (hP : P.length < 256 ^ hf.width)
    (hsplit : first ++ rest.flatten = header_bytes hf P.length ++ P)
    (hfirst : hf.width < first.length) (hrest : ∀ d ∈ rest, d ≠ []) :
    feed hf (fresh endpoint) ((first :: rest).map fun d => (ErrorCode.success, d))
      = .ok ⟨P, P.length, endpoint, false, false, [(endpoint.1, endpoint.2, P)]⟩ := by
  have hlen := header_bytes_length hf P.length
  have hsplit2 : first.take hf.width ++ (first.drop hf.width ++ rest.flatten)
      = header_bytes hf P.length ++ P := by
    rw [← List.append_assoc, List.take_append_drop]
    exact hsplit
  have hl : (first.take hf.width).length = (header_bytes hf P.length).length := by
    rw [List.length_take, hlen]
    omega
  obtain ⟨h1, h2⟩ := List.append_inj hsplit2 hl
  have hfst : first = header_bytes hf P.length ++ first.drop hf.width := by
    rw [← h1, List.take_append_drop]
  have hPeq : P = first.drop hf.width ++ rest.flatten := h2.symm
  have hQ : first.drop hf.width ≠ [] := by
    intro h
    have := congrArg List.length h
    simp only [List.length_drop, List.length_nil] at this
    omega
  have hstep := handle_read_first hf (fresh endpoint) P.length (first.drop hf.width) rfl hP
  rw [← hfst] at hstep
  rw [List.map_cons, feed]
  simp only [fresh, ↓reduceIte] at hstep ⊢
  rw [hstep]
  cases rest with
  | nil =>
    have hPQ : P = first.drop hf.width := by simpa using hPeq
    rw [← hPQ]
    simp [feed, pure, Except.pure]
  | cons d rest1 =>
    have hd : 0 < d.length := List.length_pos.2 (hrest d (by simp))
    have hlt : ¬ P.length ≤ (first.drop hf.width).length := by
      have := congrArg List.length hPeq
      simp only [List.length_append, List.flatten_cons] at this
      omega
    rw [if_neg hlt]
    have hacc := feed_accumulate hf endpoint P.length [] (d :: rest1) (first.drop hf.width)
      hQ (by simp) hrest (by rw [← List.length_append, ← hPeq])
    simp only [List.nil_append] at hacc
    rw [← hPeq] at hacc
    exact hacc

/-- A disconnect completion that finds a non-empty accumulated payload appends its
bytes, enqueues the payload accumulated so far and closes the socket. -/
theorem handle_read_disconnect_of_nonempty (hf : HeaderFormat) (c : TCPConnection)
    (error : ErrorCode) (data : List Byte) (hc : c.datagram ≠ [])
    (he : error = ErrorCode.eof ∨ error = ErrorCode.connection_reset) :
    handle_read hf c error data
      = .ok { c with
          datagram := c.datagram ++ data
          socket_open := false
          reading := false
          buffer := c.buffer ++ [(c.endpoint.1, c.endpoint.2, c.datagram ++ data)] } := by
  have hDe : c.datagram.isEmpty = false := by
    cases hd : c.datagram with
    | nil => exact absurd hd hc
    | cons a l => rfl
  rcases he with he | he <;>
    simp [handle_read, he, hDe, pure, Except.pure, bind, Except.bind]

/-- The part of disconnect-before-complete that the code delivers: when the first read
brought the header and a non-empty part `Q` of the payload, shorter than declared, a
disconnect completion without bytes enqueues exactly one message, with payload `Q`. -/
theorem feed_disconnect_delivers (hf : HeaderFormat) (endpoint : String × Nat) (N : Nat)
    (Q : List Byte) (error : ErrorCode) (hN : N < 256 ^ hf.width) (hQ : Q ≠ [])
    (hlt : Q.length < N)
    (he : error = ErrorCode.eof ∨ error = ErrorCode.connection_reset) :
    feed hf (fresh endpoint) [(ErrorCode.success, header_bytes hf N ++ Q), (error, [])]
      = .ok ⟨Q, N, endpoint, false, false, [(endpoint.1, endpoint.2, Q)]⟩ := by
  have h1 := handle_read_first hf (fresh endpoint) N Q rfl hN
  rw [if_neg (by omega)] at h1
  have h2 := handle_read_disconnect_of_nonempty hf ⟨Q, N, endpoint, true, true, []⟩ error []
    hQ he
  simp only [fresh] at h1
  simp only [feed, fresh, ↓reduceIte]
  rw [h1]
  simp only [↓reduceIte]
  rw [h2]
  simp [pure, Except.pure]

end TCPConnection

end Gfrp2p
